import Mathlib

/-!
# Verification of the code-review request action

Shallow embedding of the repository's two entry sequences ("setup" and
"request") and their shared helper library (`utils.js`).  External effects
(the forge REST API, subprocess execution, the host's state persistence)
are modelled by passing the observed responses, exit codes and stores as
explicit arguments; each embedded function mirrors the control flow of the
corresponding JavaScript function.
-/

set_option autoImplicit false
set_option maxRecDepth 8192

namespace ReviewAction

instance exceptDecEq {ε α : Type} [DecidableEq ε] [DecidableEq α] :
    DecidableEq (Except ε α) := fun a b =>
  match a, b with
  | .error e, .error f =>
    if h : e = f then isTrue (congrArg Except.error h)
    else isFalse (fun hc => h (Except.error.inj hc))
  | .ok x, .ok y =>
    if h : x = y then isTrue (congrArg Except.ok h)
    else isFalse (fun hc => h (Except.ok.inj hc))
  | .error _, .ok _ => isFalse (fun hc => Except.noConfusion hc)
  | .ok _, .error _ => isFalse (fun hc => Except.noConfusion hc)

/-! ## Reference parsing (`utils.parseProject`, `checkRequestType`) -/

/-- Result of `parseProject`: the `details` object built by the source. -/
structure ProjectDetails where
  type : String
  owner : String
  mainRepo : String
  testRepo : String
  project : Nat
  reviews : Nat
  patches : Nat
  version : String
  deriving DecidableEq

/-- `utils.testDir`, the fixed test-repository name. -/
def testDir : String := "project-tests"

/-- `checkRequestType`: resolves the review-type flag input.
JS: empty input is falsy and rejected; otherwise dispatch on `charAt(0)`. -/
def checkRequestType (type : String) : Except String String :=
  let usage := "Review request types must start with \"s\" for synchronous code reviews (default type) or \"a\" for pre-approved asynchronous code reviews."
  match type.data with
  | [] => .error ("Missing required review request type. " ++ usage)
  | c :: _ =>
    if c = 's' ∨ c = 'S' then .ok "Synchronous"
    else if c = 'a' ∨ c = 'A' then .ok "Asynchronous"
    else .error ("The value \"" ++ type ++ "\" is not a valid code review type. " ++ usage)

/-- JavaScript `str.split(sep)` for a single-character separator, on the
character list of the string. -/
def splitChar (sep : Char) : List Char → List (List Char)
  | [] => [[]]
  | a :: as =>
    let r := splitChar sep as
    if a = sep then [] :: r else (a :: r.headD []) :: r.tail

/-- `tokens[tokens.length - 1]`: the last token of a split result. -/
def lastTok : List (List Char) → List Char
  | [] => []
  | [t] => t
  | _ :: t :: ts => lastTok (t :: ts)

/-- Numeric value of a decimal digit string (JS unary `+` on the capture). -/
def digitsVal (l : List Char) : Nat :=
  l.foldl (fun n c => n * 10 + (c.toNat - 48)) 0

/-- Anchored match of `^v([1-4])\.(\d+)\.(\d+)$` against a character list,
returning the three numeric captures. -/
def matchVersion (l : List Char) : Option (Nat × Nat × Nat) :=
  match l with
  | 'v' :: c :: '.' :: rest =>
    if '1' ≤ c ∧ c ≤ '4' then
      match rest.span Char.isDigit with
      | (d1 :: ds1, '.' :: rest2) =>
        match rest2.span Char.isDigit with
        | (d2 :: ds2, []) =>
          some (c.toNat - 48, digitsVal (d1 :: ds1), digitsVal (d2 :: ds2))
        | _ => none
      | _ => none
    else none
  | _ => none

/-- Continuation of the spec's pattern after `v[1-4].`: one or more digits,
a dot, and a digit (further characters may follow). -/
def digitsPat : List Char → Bool
  | [] => false
  | c :: rest =>
    c.isDigit &&
      ((match rest with
        | '.' :: d :: _ => d.isDigit
        | _ => false) || digitsPat rest)

/-- Match of the spec's (unanchored) pattern `v[1-4]\.\d+\.\d+` at the head
of a character list; the pattern may be followed by further characters. -/
def prefixPatternV (l : List Char) : Bool :=
  match l with
  | 'v' :: c :: '.' :: rest =>
    if '1' ≤ c ∧ c ≤ '4' then digitsPat rest else false
  | _ => false

/-- JavaScript regex search semantics for the spec's pattern
`v[1-4]\.\d+\.\d+`: some position of the string starts a match. -/
def containsPatternV (l : List Char) : Bool :=
  l.tails.any prefixPatternV

/-- `utils.parseProject`: resolves the request type, splits the reference on
`/`, matches the last token against the version pattern, and either returns
the project details or throws the parse error. -/
def parseProject (typeInput owner repo ref : String) : Except String ProjectDetails :=
  match checkRequestType typeInput with
  | .error e => .error e
  | .ok ty =>
    let tokens := splitChar '/' ref.data
    let version := lastTok tokens
    match matchVersion version with
    | some pr =>
      .ok { type := ty, owner := owner, mainRepo := owner ++ "/" ++ repo,
            testRepo := owner ++ "/" ++ testDir,
            project := pr.1, reviews := pr.2.1, patches := pr.2.2,
            version := String.mk version }
    | none => .error ("Unable to parse project information from: " ++ ref)

/-! ## Release verification (`utils.verifyRelease`)

The two octokit lookups are modelled by passing the observed responses:
a status code plus the parsed body. -/

/-- A forge API response: HTTP status plus parsed payload. -/
structure Response (α : Type) where
  status : Nat
  data : α
  deriving DecidableEq

/-- The fields of a release object that the source reads. -/
structure Release where
  html_url : String
  tag_name : String
  created_at : String
  deriving DecidableEq

/-- The fields of a workflow-run object that the source reads. -/
structure WorkflowRun where
  event : String
  name : String
  head_branch : String
  status : String
  conclusion : String
  run_number : Nat
  id : Nat
  html_url : String
  deriving DecidableEq

/-- The `details` object returned by `verifyRelease`. -/
structure VerifyDetails where
  release : Release
  workflow : WorkflowRun
  deriving DecidableEq

/-- The filter applied to the run list (used for the informational branch
listing in the source). -/
def releaseRunFilter (r : WorkflowRun) : Bool :=
  r.event == "release" && r.name == "Run Project Tests"

/-- `utils.verifyRelease`: checks the release lookup, checks the run
listing, then searches the run list for the run whose head branch equals
the release tag and validates its status and conclusion.  Console output
(including the `branches` listing built from the filtered runs) is dropped;
each `throw` inside the two `try` blocks is rewrapped exactly as in the
source's `catch` clauses. -/
def verifyRelease (release : String) (relResp : Response Release)
    (runsResp : Response (List WorkflowRun)) : Except String VerifyDetails :=
  if relResp.status ≠ 200 then
    .error ("Unable to fetch release " ++ release ++ " (" ++
      toString relResp.status ++ " exit code).")
  else if runsResp.status ≠ 200 then
    .error ("Unable to verify release " ++ release ++ " (" ++
      toString runsResp.status ++ " exit code).")
  else
    match runsResp.data.find? (fun r => r.head_branch == release) with
    | none =>
      .error ("Unable to verify release " ++ release ++ " (workflow run not found).")
    | some found =>
      if found.status ≠ "completed" ∨ found.conclusion ≠ "success" then
        .error ("Unable to verify release " ++ release ++ " (run #" ++
          toString found.run_number ++ " id " ++ toString found.id ++
          " not successful).")
      else .ok { release := relResp.data, workflow := found }

/-! ## Issue/PR gatekeeper (`checkIssues` in the setup sequence) -/

/-- The `pull_request` sub-object of an issue, when present. -/
structure PullRef where
  html_url : Option String
  deriving DecidableEq

/-- The fields of an issue object that the gatekeeper reads.  A missing
`active_lock_reason` is modelled as the empty string (JS `undefined`
compares unequal to any string, as does `""`). -/
structure Issue where
  number : Nat
  html_url : String
  state : String
  locked : Bool
  active_lock_reason : String
  pull_request : Option PullRef
  deriving DecidableEq

/-- The approved predicate: `state == 'closed' && locked == true &&
active_lock_reason == 'resolved'`. -/
def approvedIssue (x : Issue) : Bool :=
  x.state == "closed" && x.locked == true && x.active_lock_reason == "resolved"

/-- The open pull-request predicate: `state == 'open' && 'pull_request' in x
&& 'html_url' in x.pull_request`. -/
def openPullPred (x : Issue) : Bool :=
  x.state == "open" &&
    (match x.pull_request with
     | some pr => pr.html_url.isSome
     | none => false)

/-- The value returned by `checkIssues`. -/
structure CheckResult where
  issueNumber : Nat
  issueUrl : String
  deriving DecidableEq

/-- `checkIssues`: the four label-filtered query results are passed in as
lists.  Mirrors the source's three `find`-based gates in order. -/
def checkIssues (project : Nat) (funIssues desIssues syncPulls asyncPulls : List Issue) :
    Except String CheckResult :=
  match funIssues.find? approvedIssue with
  | none =>
    .error ("Unable to detect approved functionality issue for project " ++
      toString project ++ ". You must pass functionality before requesting code review.")
  | some funPassed =>
    match desIssues.find? approvedIssue with
    | some desPassed =>
      .error ("Detected approved design issue #" ++ toString desPassed.number ++
        " for project " ++ toString project ++ ". Additional code reviews are not necessary.")
    | none =>
      match (syncPulls ++ asyncPulls).find? openPullPred with
      | some openPull =>
        .error ("Detected open pull request #" ++ toString openPull.number ++
          " for project " ++ toString project ++
          ". Please merge or close old pull requests before requesting code review.")
      | none => .ok { issueNumber := funPassed.number, issueUrl := funPassed.html_url }

/-! ## Branch preparation (`prepareBranch` in the setup sequence)

Each `checkExec` call is modelled by its observed exit code; the embedding
additionally records which git steps were executed, so that "the review
branch is never created" is expressible as the checkout step being absent
from the trace. -/

/-- The git invocations of `prepareBranch`, in source order. -/
inductive GitStep where
  | fetch | diffShort | diffQuiet | cfgName | cfgEmail | checkout
  deriving DecidableEq

/-- `prepareBranch`: returns the executed steps and the result.  Steps with
an `error` setting throw on a nonzero exit code with the exit code appended;
the quiet diff has no `error` setting and its exit code is used as the
zero-diff signal. -/
def prepareBranch (release : String) (exits : GitStep → Int) :
    List GitStep × Except String String :=
  let fe := exits GitStep.fetch
  if fe ≠ 0 then
    ([GitStep.fetch],
      .error ("Unable to fetch history and tags (" ++ toString fe ++ ")."))
  else
    let de := exits GitStep.diffShort
    if de ≠ 0 then
      ([GitStep.fetch, GitStep.diffShort],
        .error ("Unable compare main branch and release (" ++ toString de ++ ")."))
    else
      let changed := exits GitStep.diffQuiet
      if changed ≠ 0 then
        ([GitStep.fetch, GitStep.diffShort, GitStep.diffQuiet],
          .error ("The main branch has one or more commits since release " ++ release ++
            " was created. There must be no changes since the last verified release for code review."))
      else
        let c1 := exits GitStep.cfgName
        if c1 ≠ 0 then
          ([GitStep.fetch, GitStep.diffShort, GitStep.diffQuiet, GitStep.cfgName],
            .error ("Unable to configure github action user (" ++ toString c1 ++ ")."))
        else
          let c2 := exits GitStep.cfgEmail
          if c2 ≠ 0 then
            ([GitStep.fetch, GitStep.diffShort, GitStep.diffQuiet, GitStep.cfgName,
              GitStep.cfgEmail],
              .error ("Unable to configure github action email (" ++ toString c2 ++ ")."))
          else
            let co := exits GitStep.checkout
            if co ≠ 0 then
              ([GitStep.fetch, GitStep.diffShort, GitStep.diffQuiet, GitStep.cfgName,
                GitStep.cfgEmail, GitStep.checkout],
                .error ("Unable to create review branch (" ++ toString co ++ ")."))
            else
              ([GitStep.fetch, GitStep.diffShort, GitStep.diffQuiet, GitStep.cfgName,
                GitStep.cfgEmail, GitStep.checkout],
                .ok ("review/" ++ release))

/-! ## Text-scan gates (request sequence, "Checking code for cleanup") -/

/-- The two grep-based gates of the request sequence: the integer results of
the TODO scan and the extra-main-method scan (the `checkExec` return values,
stored in `status.todoGrep` and `status.mainGrep`) are each compared against
the exact value 1. -/
def requestScans (todoGrep mainGrep : Int) : Except String Unit :=
  if todoGrep ≠ 1 then
    .error "One or more TODO comments found. Please clean up the code before requesting code review."
  else if mainGrep ≠ 1 then
    .error "More than one main method found. Please clean up old main methods before requesting code review."
  else .ok ()

/-! ## Label sorter (pull-request table in the request sequence) -/

/-- A label object; the comparator reads only `name`. -/
structure Label where
  name : String
  deriving DecidableEq

/-- JavaScript `str.startsWith(p)` on character lists. -/
def startsWithChars (s p : List Char) : Bool := p.isPrefixOf s

/-- JavaScript `<` on strings: lexicographic comparison of code units,
on character lists. -/
def charListLt : List Char → List Char → Bool
  | [], [] => false
  | [], _ :: _ => true
  | _ :: _, [] => false
  | a :: as, b :: bs => if a < b then true else if b < a then false else charListLt as bs

/-- The `sorter` comparator from the request sequence, as an else-if chain
of its early returns. -/
def sorter (x y : Label) : Int :=
  if startsWithChars x.name.data "project".data then -1
  else if startsWithChars y.name.data "project".data then 1
  else if startsWithChars x.name.data "v".data then -1
  else if startsWithChars y.name.data "v".data then 1
  else if charListLt x.name.data y.name.data then -1
  else if charListLt y.name.data x.name.data then -1
  else 0

/-- One step of the engine's insertion sort: insert `el` into the reversed
already-sorted prefix, scanning from its right end and shifting elements
that compare greater than `el`. -/
def insertRev {α : Type} (cmp : α → α → Int) (el : α) : List α → List α
  | [] => [el]
  | x :: xs => if cmp x el > 0 then x :: insertRev cmp el xs else el :: x :: xs

/-- `Array.prototype.sort` with a comparator, as the engine's insertion sort
(the algorithm used for short arrays).  On inputs where the comparator is a
strict total order — as in the claim's instance — any comparison sort
produces this output. -/
def jsSort {α : Type} (cmp : α → α → Int) (l : List α) : List α :=
  (l.foldl (fun acc el => insertRev cmp el acc) []).reverse

/-! ## Milestone, pull-request and review helpers (`utils.getMilestone`,
`utils.getPullRequests`, and the review listing in the request sequence) -/

/-- The fields of a milestone object that the source reads. -/
structure Milestone where
  title : String
  number : Nat
  deriving DecidableEq

/-- `utils.getMilestone`: list milestones, find `Project <n>`, create it if
absent.  In the source, the non-200 branch executes `core.info(SON.stringify(milestones))`
where `SON` is an undefined identifier, so that branch raises
`ReferenceError: SON is not defined` before reaching its intended
descriptive `throw`; the embedding records that raised message. -/
def getMilestone (repo : String) (project : Nat)
    (listResp : Response (List Milestone)) (createResp : Response Milestone) :
    Except String Milestone :=
  if listResp.status ≠ 200 then
    .error "SON is not defined"
  else
    let title := "Project " ++ toString project
    match listResp.data.find? (fun x => x.title == title) with
    | some found => .ok found
    | none =>
      if createResp.status ≠ 201 then
        .error ("Unable to create " ++ title ++ " milestone in: " ++ repo)
      else .ok createResp.data

/-- The intended message of the dead descriptive `throw` in the non-200
branch of the milestone listing. -/
def milestoneListError (repo : String) : String :=
  "Unable to list milestones in: " ++ repo

/-- The fields of a pull-request object that `getPullRequests` reads. -/
structure Pull where
  number : Nat
  labels : List Label
  deriving DecidableEq

/-- `utils.getPullRequests`: a 404 listing status produces a warning (the
second component counts warnings emitted, via `showWarning`) and an empty
list; any other non-200 status throws; a 200 status filters by the
`project<n>` label. -/
def getPullRequests (repo : String) (project : Nat) (resp : Response (List Pull)) :
    (Except String (List Pull)) × Nat :=
  if resp.status = 404 then
    (.ok [], 1)
  else if resp.status ≠ 200 then
    (.error ("Unable to list pull requests in: " ++ repo), 0)
  else
    (.ok (resp.data.filter
      (fun x => x.labels.any (fun y => y.name == "project" ++ toString project))), 0)

/-- The fields of a review object that the request sequence reads. -/
structure Review where
  state : String
  userLogin : String
  deriving DecidableEq

/-- The handling of the `pulls.listReviews` response in the request
sequence: the approvals cell is computed directly from `reviews.data`
with no status check on the response. -/
def reviewApprovals (resp : Response (List Review)) : String :=
  let approved := resp.data.filter (fun x => x.state == "APPROVED")
  String.intercalate ", " (approved.map Review.userLogin)

/-! ## State persistence (`utils.saveStates`, `utils.restoreStates`)

The host's state mechanism (`core.saveState` / `core.getState`) is a flat
string-to-string store where a never-saved key reads back as the empty
string.  The `states` object is an insertion-ordered mapping, modelled as
an association list with distinct keys.  `JSON.stringify`/`JSON.parse` on
the key array are modelled by an executable serializer and parser. -/

/-- The host's persisted store: `core.getState` of a never-saved key is `""`. -/
def Store : Type := String → String

/-- A store with nothing saved. -/
def emptyStore : Store := fun _ => ""

/-- `core.saveState`. -/
def setStore (st : Store) (k v : String) : Store :=
  fun k' => if k' = k then v else st k'

/-- JSON escaping of one character inside a string literal (quote and
backslash; other characters are carried through). -/
def escapeChar (c : Char) : List Char :=
  if c = '\\' ∨ c = '"' then ['\\', c] else [c]

/-- JSON escaping of a character list. -/
def escapeChars (l : List Char) : List Char :=
  (l.map escapeChar).flatten

/-- A JSON string literal for a character list. -/
def quoteItem (l : List Char) : List Char :=
  '"' :: (escapeChars l ++ ['"'])

/-- Comma-joined JSON items. -/
def interComma : List (List Char) → List Char
  | [] => []
  | [a] => a
  | a :: b :: t => a ++ ',' :: interComma (b :: t)

/-- `JSON.stringify` of an array of strings, on character lists. -/
def encodeKeysChars (keys : List (List Char)) : List Char :=
  '[' :: (interComma (keys.map quoteItem) ++ [']'])

/-- `JSON.stringify` of an array of strings. -/
def encodeKeys (keys : List String) : String :=
  String.mk (encodeKeysChars (keys.map String.data))

/-- Parser state for the JSON string-array parser: mode 0 expects an item
or the closing bracket, 1 is inside a string, 2 follows a backslash,
3 expects a comma or the closing bracket, 4 is accept, anything else is
reject. -/
structure JState where
  mode : Nat
  cur : List Char
  items : List (List Char)
  deriving DecidableEq

/-- One character step of the JSON string-array parser. -/
def jstep (s : JState) (c : Char) : JState :=
  match s.mode with
  | 0 => if c = '"' then { s with mode := 1 }
         else if c = ']' then { s with mode := 4 }
         else { s with mode := 5 }
  | 1 => if c = '\\' then { s with mode := 2 }
         else if c = '"' then { mode := 3, cur := [], items := s.items ++ [s.cur] }
         else { s with cur := s.cur ++ [c] }
  | 2 => { s with mode := 1, cur := s.cur ++ [c] }
  | 3 => if c = ',' then { s with mode := 0 }
         else if c = ']' then { s with mode := 4 }
         else { s with mode := 5 }
  | _ => { s with mode := 5 }

/-- `JSON.parse` of an array of strings, on character lists; `none` models
a thrown `SyntaxError`. -/
def decodeKeysChars (l : List Char) : Option (List (List Char)) :=
  match l with
  | '[' :: rest =>
    let final := rest.foldl jstep { mode := 0, cur := [], items := [] }
    if final.mode = 4 then some final.items else none
  | _ => none

/-- `JSON.parse` of an array of strings. -/
def decodeKeys (s : String) : Option (List String) :=
  (decodeKeysChars s.data).map (fun l => l.map String.mk)

/-- `utils.saveStates`: saves each entry of `states` under its key, then
saves the serialized key list under the reserved key `keys`. -/
def saveStates (store : Store) (states : List (String × String)) : Store :=
  let store1 := states.foldl (fun st kv => setStore st kv.1 kv.2) store
  setStore store1 "keys" (encodeKeys (states.map Prod.fst))

/-- JavaScript `states[key] = v` on an insertion-ordered object: overwrite
in place if the key exists, else append. -/
def setAssoc (sts : List (String × String)) (k v : String) : List (String × String) :=
  match sts with
  | [] => [(k, v)]
  | (k', v') :: rest => if k' = k then (k, v) :: rest else (k', v') :: setAssoc rest k v

/-- `utils.restoreStates`: reads the saved key list; if it is truthy,
parses it and copies each listed key's stored value into `states`
(a `JSON.parse` failure would be thrown); otherwise returns `states`
unchanged. -/
def restoreStates (store : Store) (states : List (String × String)) :
    Except String (List (String × String)) :=
  let saved := store "keys"
  if saved ≠ "" then
    match decodeKeys saved with
    | some keys => .ok (keys.foldl (fun sts k => setAssoc sts k (store k)) states)
    | none => .error "Unexpected token in JSON"
  else .ok states

/-! ## Theorems -/

/-- C3: `prepareBranch` creates and checks out the review branch only when
the quiet diff between the default branch and the release tag exits with
zero; when the diff exit signal is nonzero it fails with the specific
message about commits existing since the release, and the checkout step is
never executed in that case. -/
theorem c3_branch_creation_invariant :
    ∀ (release : String) (exits : GitStep → Int),
      (GitStep.checkout ∈ (prepareBranch release exits).1 →
        exits GitStep.diffQuiet = 0) ∧
      (exits GitStep.fetch = 0 → exits GitStep.diffShort = 0 →
        exits GitStep.diffQuiet ≠ 0 →
        (prepareBranch release exits).2 =
          .error ("The main branch has one or more commits since release " ++ release ++
            " was created. There must be no changes since the last verified release for code review.") ∧
        GitStep.checkout ∉ (prepareBranch release exits).1) := by
  intro release exits
  constructor
  · intro hmem
    by_contra hne
    by_cases h1 : exits GitStep.fetch = 0
    · by_cases h2 : exits GitStep.diffShort = 0
      · simp [prepareBranch, h1, h2, hne] at hmem
      · simp [prepareBranch, h1, h2] at hmem
    · simp [prepareBranch, h1] at hmem
  · intro h1 h2 h3
    simp [prepareBranch, h1, h2, h3]

/-- C3 witness: with exit codes that are zero everywhere except the quiet
diff, `prepareBranch` fails with the specific message and never runs the
checkout step. -/
theorem c3_branch_creation_invariant_witness :
    (prepareBranch "v1.0.0" (fun s => if s = GitStep.diffQuiet then 1 else 0)).2 =
      .error ("The main branch has one or more commits since release " ++ "v1.0.0" ++
        " was created. There must be no changes since the last verified release for code review.") ∧
    GitStep.checkout ∉
      (prepareBranch "v1.0.0" (fun s => if s = GitStep.diffQuiet then 1 else 0)).1 :=
  (c3_branch_creation_invariant "v1.0.0" (fun s => if s = GitStep.diffQuiet then 1 else 0)).2
    (by decide) (by decide) (by decide)

/-- C4: for every integer result of the TODO scan and every integer result
of the extra-main-method scan, the request sequence throws when the result
is not exactly 1 and proceeds when it equals 1. -/
theorem c4_text_scan_gates :
    ∀ todoGrep mainGrep : Int,
      (todoGrep ≠ 1 → requestScans todoGrep mainGrep =
        .error "One or more TODO comments found. Please clean up the code before requesting code review.") ∧
      (todoGrep = 1 → mainGrep ≠ 1 → requestScans todoGrep mainGrep =
        .error "More than one main method found. Please clean up old main methods before requesting code review.") ∧
      (todoGrep = 1 → mainGrep = 1 → requestScans todoGrep mainGrep = .ok ()) := by
  intro t m
  refine ⟨fun h1 => ?_, fun h1 h2 => ?_, fun h1 h2 => ?_⟩
  · simp [requestScans, h1]
  · simp [requestScans, h1, h2]
  · simp [requestScans, h1, h2]

/-- C4 witness: concrete scan results on both sides of each gate. -/
theorem c4_text_scan_gates_witness :
    requestScans 2 1 =
      .error "One or more TODO comments found. Please clean up the code before requesting code review." ∧
    requestScans 1 0 =
      .error "More than one main method found. Please clean up old main methods before requesting code review." ∧
    requestScans 1 1 = .ok () :=
  ⟨(c4_text_scan_gates 2 1).1 (by decide),
   (c4_text_scan_gates 1 0).2.1 rfl (by decide),
   (c4_text_scan_gates 1 1).2.2 rfl rfl⟩

/-- C9: the reference `v2.3.1` with review-type flag `s` parses to
project 2, reviews 3, patches 1, type Synchronous; and every successful
run of `prepareBranch` returns exactly `review/<versionTag>`. -/
theorem c9_end_to_end_reference :
    (∀ owner repo : String,
      parseProject "s" owner repo "v2.3.1" =
        .ok { type := "Synchronous", owner := owner,
              mainRepo := owner ++ "/" ++ repo,
              testRepo := owner ++ "/" ++ testDir, project := 2, reviews := 3,
              patches := 1, version := "v2.3.1" }) ∧
    (∀ (release : String) (exits : GitStep → Int) (b : String),
      (prepareBranch release exits).2 = .ok b → b = "review/" ++ release) := by
  constructor
  · intro owner repo
    rfl
  · intro release exits b h
    by_cases h1 : exits GitStep.fetch = 0 <;>
      by_cases h2 : exits GitStep.diffShort = 0 <;>
        by_cases h3 : exits GitStep.diffQuiet = 0 <;>
          by_cases h4 : exits GitStep.cfgName = 0 <;>
            by_cases h5 : exits GitStep.cfgEmail = 0 <;>
              by_cases h6 : exits GitStep.checkout = 0 <;>
                simp_all [prepareBranch, h1, h2, h3, h4, h5, h6]

/-- C9 witness: the branch name for the parsed release `v2.3.1` is exactly
`review/v2.3.1`. -/
theorem c9_end_to_end_reference_witness :
    (prepareBranch "v2.3.1" (fun _ => 0)).2 = .ok "review/v2.3.1" ∧
    ("review/v2.3.1" : String) = "review/" ++ "v2.3.1" :=
  ⟨by decide, c9_end_to_end_reference.2 "v2.3.1" (fun _ => 0) "review/v2.3.1" (by decide)⟩

/-- Strings with equal character data are equal. -/
theorem string_data_inj {s t : String} (h : s.data = t.data) : s = t := by
  cases s
  cases t
  exact congrArg String.mk h

/-- Lexicographic trichotomy for `charListLt`: distinct character lists
compare strictly in one direction. -/
theorem charListLt_of_ne : ∀ {a b : List Char}, a ≠ b →
    charListLt a b = true ∨ charListLt b a = true := by
  intro a
  induction a with
  | nil =>
    intro b h
    cases b with
    | nil => exact absurd rfl h
    | cons d ds => left; rfl
  | cons c cs ih =>
    intro b h
    cases b with
    | nil => right; rfl
    | cons d ds =>
      rcases lt_trichotomy c d with h1 | h1 | h1
      · left
        simp [charListLt, h1]
      · subst h1
        have hne : cs ≠ ds := fun e => h (by rw [e])
        rcases ih hne with h2 | h2
        · left
          simp [charListLt, h2]
        · right
          simp [charListLt, h2]
      · right
        simp [charListLt, h1]

/-- C7: sorting the labels `['v1.2.0','project3','zzz']` with the
pull-request table's comparator yields `['project3','v1.2.0','zzz']`; the
comparator puts `project`-prefixed names first, then `v`-prefixed names,
and its final lexicographic branch returns -1 for both orderings of
unequal names. -/
theorem c7_label_sort :
    ((jsSort sorter [⟨"v1.2.0"⟩, ⟨"project3"⟩, ⟨"zzz"⟩]).map Label.name =
      ["project3", "v1.2.0", "zzz"]) ∧
    (∀ x y : Label,
      startsWithChars x.name.data "project".data = true → sorter x y = -1) ∧
    (∀ x y : Label,
      startsWithChars x.name.data "project".data = false →
      startsWithChars y.name.data "project".data = true → sorter x y = 1) ∧
    (∀ x y : Label,
      startsWithChars x.name.data "project".data = false →
      startsWithChars y.name.data "project".data = false →
      startsWithChars x.name.data "v".data = true → sorter x y = -1) ∧
    (∀ x y : Label,
      startsWithChars x.name.data "project".data = false →
      startsWithChars y.name.data "project".data = false →
      startsWithChars x.name.data "v".data = false →
      startsWithChars y.name.data "v".data = true → sorter x y = 1) ∧
    (∀ x y : Label,
      startsWithChars x.name.data "project".data = false →
      startsWithChars y.name.data "project".data = false →
      startsWithChars x.name.data "v".data = false →
      startsWithChars y.name.data "v".data = false →
      x.name ≠ y.name → sorter x y = -1 ∧ sorter y x = -1) := by
  refine ⟨by rfl, ?_, ?_, ?_, ?_, ?_⟩
  · intro x y h1
    simp [sorter, h1]
  · intro x y h1 h2
    simp [sorter, h1, h2]
  · intro x y h1 h2 h3
    simp [sorter, h1, h2, h3]
  · intro x y h1 h2 h3 h4
    simp [sorter, h1, h2, h3, h4]
  · intro x y h1 h2 h3 h4 hne
    have hd : x.name.data ≠ y.name.data := fun e => hne (string_data_inj e)
    rcases charListLt_of_ne hd with hlt | hlt
    · constructor
      · simp [sorter, h1, h2, h3, h4, hlt]
      · by_cases hba : charListLt y.name.data x.name.data = true
        · simp [sorter, h1, h2, h3, h4, hba]
        · simp [sorter, h1, h2, h3, h4, hba, hlt]
    · constructor
      · by_cases hab : charListLt x.name.data y.name.data = true
        · simp [sorter, h1, h2, h3, h4, hab]
        · simp [sorter, h1, h2, h3, h4, hab, hlt]
      · simp [sorter, h1, h2, h3, h4, hlt]

/-- C7 witness: each ordering branch of the comparator at concrete labels,
including both orderings of unequal plain names returning -1. -/
theorem c7_label_sort_witness :
    sorter ⟨"project9"⟩ ⟨"abc"⟩ = -1 ∧
    sorter ⟨"abc"⟩ ⟨"project9"⟩ = 1 ∧
    sorter ⟨"vX"⟩ ⟨"abc"⟩ = -1 ∧
    sorter ⟨"abc"⟩ ⟨"vX"⟩ = 1 ∧
    sorter ⟨"abc"⟩ ⟨"abd"⟩ = -1 ∧
    sorter ⟨"abd"⟩ ⟨"abc"⟩ = -1 :=
  ⟨c7_label_sort.2.1 ⟨"project9"⟩ ⟨"abc"⟩ (by rfl),
   c7_label_sort.2.2.1 ⟨"abc"⟩ ⟨"project9"⟩ (by rfl) (by rfl),
   c7_label_sort.2.2.2.1 ⟨"vX"⟩ ⟨"abc"⟩ (by rfl) (by rfl) (by rfl),
   c7_label_sort.2.2.2.2.1 ⟨"abc"⟩ ⟨"vX"⟩ (by rfl) (by rfl) (by rfl) (by rfl),
   (c7_label_sort.2.2.2.2.2 ⟨"abc"⟩ ⟨"abd"⟩ (by rfl) (by rfl) (by rfl) (by rfl)
     (by decide)).1,
   (c7_label_sort.2.2.2.2.2 ⟨"abc"⟩ ⟨"abd"⟩ (by rfl) (by rfl) (by rfl) (by rfl)
     (by decide)).2⟩

/-- C8: with a non-200 milestone-listing status the milestone helper raises
`ReferenceError: SON is not defined` (the typo'd `SON.stringify` call)
instead of the intended descriptive error; the pull-request listing treats
404 as a warning plus an empty result; and the review-listing call site in
the request sequence uses the response data with no status check at all. -/
theorem c8_api_status_checks :
    (getMilestone "project-username" 1 ⟨500, []⟩ ⟨201, "Project 1", 7⟩ =
      .error "SON is not defined" ∧
     ("SON is not defined" : String) ≠ milestoneListError "project-username") ∧
    (getPullRequests "project-username" 1 ⟨404, [⟨5, [⟨"project1"⟩]⟩]⟩ = (.ok [], 1)) ∧
    (∀ (s₁ s₂ : Nat) (data : List Review),
      reviewApprovals ⟨s₁, data⟩ = reviewApprovals ⟨s₂, data⟩) :=
  ⟨⟨rfl, by decide⟩, rfl, fun _ _ _ => rfl⟩

/-- A concrete release used to exercise `verifyRelease`. -/
def sampleRelease : Release :=
  { html_url := "https://example.test/release", tag_name := "v1.0.0",
    created_at := "2021-10-01T00:00:00Z" }

/-- A concrete workflow run on the release tag branch whose event is not
`release` and whose name is not the designated test workflow. -/
def strayRun : WorkflowRun :=
  { event := "push", name := "Other Workflow", head_branch := "v1.0.0",
    status := "completed", conclusion := "success", run_number := 7,
    id := 42, html_url := "https://example.test/run" }

/-- C1 counterexample: with a run list whose only entry is outside the
event/name-filtered set but has the release tag as head branch,
`verifyRelease` succeeds — so the matching run is not searched for within
the filtered set, contradicting the claim that verification fails when the
filtered set holds no run for the tag. -/
theorem c1_counterexample :
    List.filter releaseRunFilter [strayRun] = [] ∧
    verifyRelease "v1.0.0" ⟨200, sampleRelease⟩ ⟨200, [strayRun]⟩ =
      .ok { release := sampleRelease, workflow := strayRun } :=
  ⟨rfl, rfl⟩

/-- C1 amended: `verifyRelease` computes the event/name-filtered runs only
for the informational branch listing; the run whose head branch equals the
release tag is searched in the full run list, and verification succeeds
exactly when both lookups return 200 and that run exists, is completed and
successful, returning its identifiers. -/
theorem c1_verify_release_amended :
    ∀ (release : String) (relResp : Response Release)
      (runsResp : Response (List WorkflowRun)) (d : VerifyDetails),
      verifyRelease release relResp runsResp = .ok d ↔
        relResp.status = 200 ∧ runsResp.status = 200 ∧
        runsResp.data.find? (fun r => r.head_branch == release) = some d.workflow ∧
        d.workflow.status = "completed" ∧ d.workflow.conclusion = "success" ∧
        d.release = relResp.data := by
  intro release relResp runsResp d
  unfold verifyRelease
  by_cases h1 : relResp.status = 200
  · by_cases h2 : runsResp.status = 200
    · simp only [h1, h2, ne_eq, not_true_eq_false, if_false, true_and]
      cases hf : runsResp.data.find? (fun r => r.head_branch == release) with
      | none => simp
      | some f =>
        simp only [Option.some.injEq]
        by_cases hs : f.status = "completed"
        · by_cases hc : f.conclusion = "success"
          · have hcond : ¬(f.status ≠ "completed" ∨ f.conclusion ≠ "success") := by
              push_neg
              exact ⟨hs, hc⟩
            rw [if_neg hcond]
            constructor
            · intro h
              injection h with h
              subst h
              exact ⟨rfl, hs, hc, rfl⟩
            · rintro ⟨hw, -, -, hr⟩
              rw [hw, ← hr]
          · rw [if_pos (Or.inr hc)]
            constructor
            · intro h
              exact absurd h (by simp)
            · rintro ⟨hw, -, hcl, -⟩
              have : f.conclusion = "success" := by rw [hw]; exact hcl
              exact absurd this hc
        · rw [if_pos (Or.inl hs)]
          constructor
          · intro h
            exact absurd h (by simp)
          · rintro ⟨hw, hst, -, -⟩
            have : f.status = "completed" := by rw [hw]; exact hst
            exact absurd this hs
    · simp [h1, h2]
  · simp [h1]

/-- Issue approved under the gatekeeper's predicate. -/
def approvedFun (n : Nat) (u : String) : Issue :=
  { number := n, html_url := u, state := "closed", locked := true,
    active_lock_reason := "resolved", pull_request := none }

/-- C2 counterexample: with two approved functionality issues (and no
design issues or pull requests) the gatekeeper succeeds and returns the
first, so success does not require exactly one approved functionality
issue, contradicting the claim's "exactly one" condition. -/
theorem c2_counterexample :
    checkIssues 1 [approvedFun 1 "u1", approvedFun 2 "u2"] [] [] [] =
      .ok { issueNumber := 1, issueUrl := "u1" } ∧
    (List.filter approvedIssue [approvedFun 1 "u1", approvedFun 2 "u2"]).length = 2 :=
  ⟨rfl, rfl⟩

/-- C2 amended: `checkIssues` succeeds and returns the first approved
functionality issue's number and url exactly when at least one
functionality issue satisfies the approved predicate (the first such issue
is returned), no design issue satisfies it, and no pull request from the
synchronous/asynchronous sets is open; violating any condition is fatal. -/
theorem c2_check_issues_amended :
    ∀ (project : Nat) (funIssues desIssues syncPulls asyncPulls : List Issue)
      (r : CheckResult),
      checkIssues project funIssues desIssues syncPulls asyncPulls = .ok r ↔
        (∃ i, funIssues.find? approvedIssue = some i ∧
          r = { issueNumber := i.number, issueUrl := i.html_url }) ∧
        desIssues.find? approvedIssue = none ∧
        (syncPulls ++ asyncPulls).find? openPullPred = none := by
  intro project funIssues desIssues syncPulls asyncPulls r
  unfold checkIssues
  cases hf : funIssues.find? approvedIssue with
  | none => simp [hf]
  | some i =>
    cases hd : desIssues.find? approvedIssue with
    | some j => simp [hd]
    | none =>
      cases hp : (syncPulls ++ asyncPulls).find? openPullPred with
      | some k => simp [hp]
      | none =>
        simp only [hd, hp]
        constructor
        · intro h
          injection h with h
          exact ⟨⟨i, rfl, h.symm⟩, by simp, by simp⟩
        · rintro ⟨⟨i', hi', hr⟩, -, -⟩
          injection hi' with hi'
          subst hi'
          rw [hr]

/-- `splitChar` never returns an empty token list. -/
theorem splitChar_ne_nil (sep : Char) (l : List Char) : splitChar sep l ≠ [] := by
  cases l with
  | nil => simp [splitChar]
  | cons a as =>
    simp only [splitChar]
    by_cases ha : a = sep <;> simp [ha]

/-- A singleton split result is the whole input. -/
theorem splitChar_singleton (sep : Char) :
    ∀ (l : List Char) (t : List Char), splitChar sep l = [t] → t = l := by
  intro l
  induction l with
  | nil =>
    intro t h
    simp only [splitChar] at h
    injection h with h1 h2
    exact h1.symm
  | cons a as ih =>
    intro t h
    simp only [splitChar] at h
    cases hs : splitChar sep as with
    | nil => exact absurd hs (splitChar_ne_nil sep as)
    | cons u us =>
      rw [hs] at h
      by_cases ha : a = sep
      · rw [if_pos ha] at h
        injection h with h1 h2
        exact absurd h2 (by simp)
      · rw [if_neg ha] at h
        simp only [List.headD_cons, List.tail_cons] at h
        injection h with h1 h2
        subst h2
        rw [← h1, ih u hs]

/-- The last token of a split is a suffix of the input. -/
theorem lastTok_splitChar_suffix (sep : Char) (l : List Char) :
    lastTok (splitChar sep l) <:+ l := by
  induction l with
  | nil => exact List.nil_suffix
  | cons a as ih =>
    cases h : splitChar sep as with
    | nil => exact absurd h (splitChar_ne_nil sep as)
    | cons t ts =>
      rw [h] at ih
      simp only [splitChar]
      rw [h]
      by_cases ha : a = sep
      · rw [if_pos ha]
        simp only [lastTok]
        exact ih.trans (List.suffix_cons a as)
      · rw [if_neg ha]
        simp only [List.headD_cons, List.tail_cons]
        cases ts with
        | nil =>
          have ht : t = as := splitChar_singleton sep as t h
          subst ht
          simp only [lastTok]
          exact List.suffix_refl _
        | cons t2 ts2 =>
          simp only [lastTok] at ih ⊢
          exact ih.trans (List.suffix_cons a as)

/-- Splitting on a character that does not occur returns the whole input as
the single token. -/
theorem splitChar_no_sep (sep : Char) :
    ∀ l : List Char, (∀ c ∈ l, c ≠ sep) → splitChar sep l = [l] := by
  intro l
  induction l with
  | nil => intro h; rfl
  | cons a as ih =>
    intro h
    simp only [splitChar]
    rw [ih (fun c hc => h c (List.mem_cons_of_mem a hc))]
    rw [if_neg (h a (List.mem_cons_self a as))]
    simp

/-- A digit character is not a slash. -/
theorem char_isDigit_ne_slash {ch : Char} (h : ch.isDigit = true) : ch ≠ '/' := by
  intro e
  subst e
  exact absurd h (by decide)

/-- A nonempty run of digits followed by a dot and a digit satisfies the
pattern continuation. -/
theorem digitsPat_append :
    ∀ (ds : List Char) (d2 : Char) (tl : List Char),
      (∀ d ∈ ds, d.isDigit = true) → d2.isDigit = true → ds ≠ [] →
      digitsPat (ds ++ '.' :: d2 :: tl) = true := by
  intro ds
  induction ds with
  | nil => intro d2 tl _ _ hne; exact absurd rfl hne
  | cons d ds' ih =>
    intro d2 tl hds hd2 _
    cases ds' with
    | nil =>
      have hstep : digitsPat (d :: '.' :: d2 :: tl) =
          (d.isDigit && (d2.isDigit || digitsPat ('.' :: d2 :: tl))) := rfl
      show digitsPat (d :: '.' :: d2 :: tl) = true
      rw [hstep, hds d (List.mem_cons_self _ _), hd2]
      rfl
    | cons d' ds'' =>
      have hstep : digitsPat (d :: ((d' :: ds'') ++ '.' :: d2 :: tl)) =
          (d.isDigit &&
            ((match (d' :: ds'') ++ '.' :: d2 :: tl with
              | '.' :: dd :: _ => dd.isDigit
              | _ => false) || digitsPat ((d' :: ds'') ++ '.' :: d2 :: tl))) := rfl
      show digitsPat (d :: ((d' :: ds'') ++ '.' :: d2 :: tl)) = true
      rw [hstep, hds d (List.mem_cons_self _ _)]
      have hih := ih d2 tl (fun x hx => hds x (List.mem_cons_of_mem d hx)) hd2 (by simp)
      rw [hih]
      simp

/-- A successful anchored version match starts an unanchored pattern match
and contains no slash. -/
theorem matchVersion_some_facts :
    ∀ (v : List Char) (pr : Nat × Nat × Nat), matchVersion v = some pr →
      prefixPatternV v = true ∧ ∀ ch ∈ v, ch ≠ '/' := by
  intro v pr h
  unfold matchVersion at h
  split at h
  case _ c rest =>
    split at h
    case isTrue hcond =>
      split at h
      case _ d1 ds1 rest2 hs1 =>
        split at h
        case _ d2 ds2 hs2 =>
          rw [List.span_eq_take_drop, Prod.mk.injEq] at hs1 hs2
          obtain ⟨ht1, hd1⟩ := hs1
          obtain ⟨ht2, hd2⟩ := hs2
          have hrest2 : rest2 = d2 :: ds2 := by
            have hw := (List.takeWhile_append_dropWhile (p := Char.isDigit) (l := rest2))
            rw [ht2, hd2, List.append_nil] at hw
            exact hw.symm
          have hdigs1 : ∀ d ∈ d1 :: ds1, d.isDigit = true := by
            intro d hd
            refine List.mem_takeWhile_imp (l := rest) (p := Char.isDigit) ?_
            rw [ht1]
            exact hd
          have hdigs2 : ∀ d ∈ d2 :: ds2, d.isDigit = true := by
            intro d hd
            refine List.mem_takeWhile_imp (l := rest2) (p := Char.isDigit) ?_
            rw [ht2]
            exact hd
          have hd2dig : d2.isDigit = true := hdigs2 d2 (List.mem_cons_self _ _)
          have hrest : rest = (d1 :: ds1) ++ '.' :: d2 :: ds2 := by
            have hw := (List.takeWhile_append_dropWhile (p := Char.isDigit) (l := rest))
            rw [ht1, hd1, hrest2] at hw
            exact hw.symm
          subst hrest
          constructor
          · show (if '1' ≤ c ∧ c ≤ '4' then
                digitsPat ((d1 :: ds1) ++ '.' :: d2 :: ds2) else false) = true
            rw [if_pos hcond]
            exact digitsPat_append (d1 :: ds1) d2 ds2 hdigs1 hd2dig (by simp)
          · intro ch hch
            rcases List.mem_cons.1 hch with h1 | hch
            · subst h1; decide
            rcases List.mem_cons.1 hch with h1 | hch
            · subst h1
              intro e
              subst e
              exact absurd hcond.1 (by decide)
            rcases List.mem_cons.1 hch with h1 | hch
            · subst h1; decide
            rcases List.mem_append.1 hch with hch | hch
            · exact char_isDigit_ne_slash (hdigs1 ch hch)
            rcases List.mem_cons.1 hch with h1 | hch
            · subst h1; decide
            · exact char_isDigit_ne_slash (hdigs2 ch hch)
        case _ h2 =>
          exact absurd h (by simp)
      case _ h1 =>
        exact absurd h (by simp)
    case isFalse hcond =>
      exact absurd h (by simp)
  case _ =>
    exact absurd h (by simp)

/-- A position that starts a pattern match inside a suffix witnesses the
unanchored containment of the pattern. -/
theorem containsPatternV_of_suffix {v l : List Char} (hs : v <:+ l)
    (hp : prefixPatternV v = true) : containsPatternV l = true := by
  unfold containsPatternV
  rw [List.any_eq_true]
  exact ⟨v, (List.mem_tails v l).2 hs, hp⟩

/-- C5: for every reference string containing no match of the pattern
`v[1-4].digits.digits` (JS regex search semantics), and any review-type
input that itself validates, `parseProject` fails with the parse error
rather than returning project details. -/
theorem c5_reference_parse_failure :
    ∀ (typeInput ty owner repo ref : String),
      checkRequestType typeInput = .ok ty →
      containsPatternV ref.data = false →
      parseProject typeInput owner repo ref =
        .error ("Unable to parse project information from: " ++ ref) := by
  intro typeInput ty owner repo ref hty hnc
  simp only [parseProject, hty]
  cases hm : matchVersion (lastTok (splitChar '/' ref.data)) with
  | none => rfl
  | some pr =>
    exfalso
    have hfacts := matchVersion_some_facts _ _ hm
    have hsuf : lastTok (splitChar '/' ref.data) <:+ ref.data :=
      lastTok_splitChar_suffix '/' ref.data
    have hc : containsPatternV ref.data = true :=
      containsPatternV_of_suffix hsuf hfacts.1
    rw [hc] at hnc
    exact Bool.noConfusion hnc

/-- C5 witness: `hello-world` contains no pattern match and fails to parse
under a valid review-type input. -/
theorem c5_reference_parse_failure_witness :
    parseProject "s" "o" "r" "hello-world" =
      .error ("Unable to parse project information from: " ++ "hello-world") :=
  c5_reference_parse_failure "s" "Synchronous" "o" "r" "hello-world"
    (by decide) (by decide)

/-- C10: the version pattern is applied only to the substring after the
final slash of the reference, so whenever that last segment matches, the
reference parses to the same project details as the bare tag alone, and
parsing succeeds whenever the review-type input validates. -/
theorem c10_pattern_on_last_segment :
    ∀ (typeInput owner repo ref : String) (pr : Nat × Nat × Nat),
      matchVersion (lastTok (splitChar '/' ref.data)) = some pr →
      (parseProject typeInput owner repo ref =
        parseProject typeInput owner repo
          (String.mk (lastTok (splitChar '/' ref.data)))) ∧
      (∀ ty, checkRequestType typeInput = .ok ty →
        parseProject typeInput owner repo ref =
          .ok { type := ty, owner := owner, mainRepo := owner ++ "/" ++ repo,
                testRepo := owner ++ "/" ++ testDir, project := pr.1,
                reviews := pr.2.1, patches := pr.2.2,
                version := String.mk (lastTok (splitChar '/' ref.data)) }) := by
  intro typeInput owner repo ref pr hm
  have hnos : ∀ ch ∈ lastTok (splitChar '/' ref.data), ch ≠ '/' :=
    (matchVersion_some_facts _ _ hm).2
  have hsplit : splitChar '/' (lastTok (splitChar '/' ref.data)) =
      [lastTok (splitChar '/' ref.data)] :=
    splitChar_no_sep '/' _ hnos
  have hdata : (String.mk (lastTok (splitChar '/' ref.data))).data =
      lastTok (splitChar '/' ref.data) := rfl
  constructor
  · cases hty : checkRequestType typeInput with
    | error e => simp only [parseProject, hty]
    | ok ty =>
      simp only [parseProject, hty, hdata, hsplit, lastTok, hm]
  · intro ty hty
    simp only [parseProject, hty, hm]

/-- C10 witness: `refs/tags/v2.3.1` parses exactly as the bare `v2.3.1`. -/
theorem c10_pattern_on_last_segment_witness :
    parseProject "s" "o" "r" "refs/tags/v2.3.1" =
      parseProject "s" "o" "r"
        (String.mk (lastTok (splitChar '/' ("refs/tags/v2.3.1" : String).data))) :=
  (c10_pattern_on_last_segment "s" "o" "r" "refs/tags/v2.3.1" (2, 3, 1) (by decide)).1

/-- Folding the parser over an escaped string body followed by its closing
quote consumes exactly the item. -/
theorem jstep_escape :
    ∀ (k cur : List Char) (items : List (List Char)) (rest : List Char),
      List.foldl jstep ⟨1, cur, items⟩ (escapeChars k ++ '"' :: rest) =
        List.foldl jstep ⟨3, [], items ++ [cur ++ k]⟩ rest := by
  intro k
  induction k with
  | nil =>
    intro cur items rest
    simp [escapeChars, jstep]
  | cons c cs ih =>
    intro cur items rest
    have hesc : escapeChars (c :: cs) = escapeChar c ++ escapeChars cs := by
      simp [escapeChars]
    rw [hesc]
    by_cases hc : c = '\\' ∨ c = '"'
    · have h1 : escapeChar c = ['\\', c] := by simp [escapeChar, hc]
      rw [h1]
      have h2 : jstep ⟨1, cur, items⟩ '\\' = ⟨2, cur, items⟩ := by simp [jstep]
      have h3 : jstep ⟨2, cur, items⟩ c = ⟨1, cur ++ [c], items⟩ := by simp [jstep]
      simp only [List.cons_append, List.nil_append, List.foldl_cons, h2, h3]
      rw [ih (cur ++ [c]) items rest]
      simp
    · have h1 : escapeChar c = [c] := by simp [escapeChar, hc]
      rw [h1]
      push_neg at hc
      have h2 : jstep ⟨1, cur, items⟩ c = ⟨1, cur ++ [c], items⟩ := by
        simp [jstep, hc.1, hc.2]
      simp only [List.cons_append, List.nil_append, List.foldl_cons, h2]
      rw [ih (cur ++ [c]) items rest]
      simp

/-- Folding the parser over the serialized items and the closing bracket
accepts and accumulates exactly those items. -/
theorem jstep_items :
    ∀ (keys : List (List Char)) (items : List (List Char)),
      List.foldl jstep ⟨0, [], items⟩ (interComma (keys.map quoteItem) ++ [']']) =
        ⟨4, [], items ++ keys⟩ := by
  intro keys
  induction keys with
  | nil =>
    intro items
    simp [interComma, jstep]
  | cons k ks ih =>
    intro items
    cases ks with
    | nil =>
      have h0 : jstep ⟨0, [], items⟩ '"' = ⟨1, [], items⟩ := by simp [jstep]
      have h3 : jstep ⟨3, [], items ++ [k]⟩ ']' = ⟨4, [], items ++ [k]⟩ := by
        simp [jstep]
      calc List.foldl jstep ⟨0, [], items⟩
              (interComma ([k].map quoteItem) ++ [']'])
          = List.foldl jstep ⟨1, [], items⟩ (escapeChars k ++ '"' :: [']']) := by
            simp only [List.map_cons, List.map_nil, interComma, quoteItem,
              List.cons_append, List.append_assoc, List.singleton_append,
              List.nil_append, List.foldl_cons, h0]
        _ = List.foldl jstep ⟨3, [], items ++ [[] ++ k]⟩ [']'] :=
            jstep_escape k [] items [']']
        _ = ⟨4, [], items ++ [k]⟩ := by
            simp only [List.nil_append, List.foldl_cons, List.foldl_nil, h3]
    | cons k2 ks2 =>
      have h0 : jstep ⟨0, [], items⟩ '"' = ⟨1, [], items⟩ := by simp [jstep]
      have h3 : jstep ⟨3, [], items ++ [k]⟩ ',' = ⟨0, [], items ++ [k]⟩ := by
        simp [jstep]
      calc List.foldl jstep ⟨0, [], items⟩
              (interComma ((k :: k2 :: ks2).map quoteItem) ++ [']'])
          = List.foldl jstep ⟨1, [], items⟩
              (escapeChars k ++ '"' :: (',' :: interComma ((k2 :: ks2).map quoteItem) ++ [']'])) := by
            simp only [List.map_cons, interComma, quoteItem, List.cons_append,
              List.append_assoc, List.foldl_cons, h0]
            rfl
        _ = List.foldl jstep ⟨3, [], items ++ [[] ++ k]⟩
              (',' :: interComma ((k2 :: ks2).map quoteItem) ++ [']']) :=
            jstep_escape k [] items _
        _ = List.foldl jstep ⟨0, [], items ++ [k]⟩
              (interComma ((k2 :: ks2).map quoteItem) ++ [']']) := by
            simp only [List.nil_append, List.cons_append, List.foldl_cons, h3]
        _ = ⟨4, [], items ++ (k :: k2 :: ks2)⟩ := by
            rw [ih (items ++ [k])]
            simp

/-- The serializer and parser round-trip on character lists. -/
theorem decodeKeysChars_encodeKeysChars (keys : List (List Char)) :
    decodeKeysChars (encodeKeysChars keys) = some keys := by
  have h := jstep_items keys []
  show (if (List.foldl jstep ⟨0, [], []⟩
        (interComma (keys.map quoteItem) ++ [']'])).mode = 4 then
      some (List.foldl jstep ⟨0, [], []⟩
        (interComma (keys.map quoteItem) ++ [']'])).items
    else none) = some keys
  rw [h]
  simp

/-- The serializer and parser round-trip on strings. -/
theorem decodeKeys_encodeKeys (keys : List String) :
    decodeKeys (encodeKeys keys) = some keys := by
  unfold decodeKeys encodeKeys
  rw [show (String.mk (encodeKeysChars (keys.map String.data))).data =
    encodeKeysChars (keys.map String.data) from rfl]
  rw [decodeKeysChars_encodeKeysChars]
  have hid : (String.mk ∘ String.data) = id := by
    funext s
    cases s
    rfl
  simp [List.map_map, hid]

/-- The serialized key list is never the empty string. -/
theorem encodeKeys_ne_empty (keys : List String) : encodeKeys keys ≠ "" := by
  intro h
  have hd : (encodeKeys keys).data = ("" : String).data := congrArg String.data h
  rw [show (encodeKeys keys).data = encodeKeysChars (keys.map String.data) from rfl] at hd
  simp [encodeKeysChars] at hd

/-- Saving states never touches keys outside the saved mapping. -/
theorem foldl_setStore_not_mem :
    ∀ (states : List (String × String)) (st : Store) (k : String),
      k ∉ states.map Prod.fst →
      (states.foldl (fun s kv => setStore s kv.1 kv.2) st) k = st k := by
  intro states
  induction states with
  | nil => intro st k _; rfl
  | cons kv rest ih =>
    intro st k hk
    simp only [List.map_cons, List.mem_cons, not_or] at hk
    simp only [List.foldl_cons]
    rw [ih _ k hk.2]
    simp [setStore, hk.1]

/-- Saving a mapping with distinct keys stores each value at its key. -/
theorem foldl_setStore_mem :
    ∀ (states : List (String × String)) (st : Store) (k v : String),
      (states.map Prod.fst).Nodup → (k, v) ∈ states →
      (states.foldl (fun s kv => setStore s kv.1 kv.2) st) k = v := by
  intro states
  induction states with
  | nil => intro st k v _ hm; exact absurd hm (List.not_mem_nil _)
  | cons kv rest ih =>
    intro st k v hnod hm
    simp only [List.map_cons, List.nodup_cons] at hnod
    rcases List.mem_cons.1 hm with he | hm
    · subst he
      simp only [List.foldl_cons]
      rw [foldl_setStore_not_mem rest _ k hnod.1]
      simp [setStore]
    · simp only [List.foldl_cons]
      exact ih _ k v hnod.2 hm

/-- Setting a fresh key on an association list appends the pair. -/
theorem setAssoc_not_mem :
    ∀ (acc : List (String × String)) (k v : String),
      k ∉ acc.map Prod.fst → setAssoc acc k v = acc ++ [(k, v)] := by
  intro acc
  induction acc with
  | nil => intro k v _; rfl
  | cons kv rest ih =>
    intro k v hk
    simp only [List.map_cons, List.mem_cons, not_or] at hk
    cases kv with
    | mk k' v' =>
      simp only [setAssoc]
      rw [if_neg (fun e => hk.1 e.symm)]
      rw [ih k v hk.2]
      simp

/-- Replaying a distinct key list through `setAssoc` with the stored values
rebuilds the saved mapping. -/
theorem foldl_setAssoc_rebuild :
    ∀ (states acc : List (String × String)) (f : String → String),
      (states.map Prod.fst).Nodup →
      (∀ kv ∈ states, f kv.1 = kv.2) →
      (∀ x ∈ states.map Prod.fst, x ∉ acc.map Prod.fst) →
      (states.map Prod.fst).foldl (fun sts k => setAssoc sts k (f k)) acc =
        acc ++ states := by
  intro states
  induction states with
  | nil => intro acc f _ _ _; simp
  | cons kv rest ih =>
    intro acc f hnod hf hdisj
    cases kv with
    | mk k v =>
      simp only [List.map_cons, List.nodup_cons] at hnod
      simp only [List.map_cons, List.foldl_cons]
      have hk : k ∉ acc.map Prod.fst :=
        hdisj k (by simp)
      rw [setAssoc_not_mem acc k (f k) hk]
      rw [hf (k, v) (List.mem_cons_self _ _)]
      rw [ih (acc ++ [(k, v)]) f hnod.2
        (fun kv hkv => hf kv (List.mem_cons_of_mem _ hkv))
        ?_]
      · simp
      · intro x hx
        simp only [List.map_append, List.map_cons, List.map_nil, List.mem_append,
          List.mem_cons, not_or]
        exact ⟨hdisj x (List.mem_cons_of_mem _ hx),
          fun he => hnod.1 (he ▸ hx), by simp⟩

/-- C6 counterexample: the mapping `{keys: 'x'}` does not round-trip — the
reserved store slot `keys` is overwritten by the serialized key list, so
restoring yields the serialized list instead of the saved value. -/
theorem c6_counterexample :
    restoreStates (saveStates emptyStore [("keys", "x")]) [] =
      .ok [("keys", "[\"keys\"]")] ∧
    restoreStates (saveStates emptyStore [("keys", "x")]) [] ≠
      .ok [("keys", "x")] := by
  constructor
  · decide
  · decide

/-- C6 amended: every string-to-string mapping with distinct keys that do
not include the reserved key `keys` round-trips through `saveStates` and
`restoreStates` (in particular `{a:'1', b:'2'}` does), and with no saved
state `restoreStates` returns the given mapping unchanged without error. -/
theorem c6_state_roundtrip :
    (∀ states : List (String × String),
      (states.map Prod.fst).Nodup → "keys" ∉ states.map Prod.fst →
      restoreStates (saveStates emptyStore states) [] = .ok states) ∧
    restoreStates (saveStates emptyStore [("a", "1"), ("b", "2")]) [] =
      .ok [("a", "1"), ("b", "2")] ∧
    (∀ states : List (String × String),
      restoreStates emptyStore states = .ok states) := by
  refine ⟨?_, by decide, ?_⟩
  · intro states hnod hnk
    have hkeys : saveStates emptyStore states "keys" =
        encodeKeys (states.map Prod.fst) := by
      simp [saveStates, setStore]
    have hget : ∀ kv ∈ states, saveStates emptyStore states kv.1 = kv.2 := by
      intro kv hkv
      have hne : kv.1 ≠ "keys" := by
        intro e
        exact hnk (e ▸ List.mem_map_of_mem Prod.fst hkv)
      simp only [saveStates, setStore, if_neg hne]
      exact foldl_setStore_mem states emptyStore kv.1 kv.2 hnod hkv
    unfold restoreStates
    rw [hkeys, if_pos (encodeKeys_ne_empty _), decodeKeys_encodeKeys]
    have hre := foldl_setAssoc_rebuild states [] (saveStates emptyStore states)
      hnod hget (by simp)
    simp only [List.nil_append] at hre
    show Except.ok ((states.map Prod.fst).foldl
      (fun sts k => setAssoc sts k (saveStates emptyStore states k)) []) =
        Except.ok states
    rw [hre]
  · intro states
    simp [restoreStates, emptyStore]

/-- C6 witness: a concrete two-entry mapping with fresh keys round-trips. -/
theorem c6_state_roundtrip_witness :
    restoreStates (saveStates emptyStore [("x", "1"), ("y", "2")]) [] =
      .ok [("x", "1"), ("y", "2")] :=
  c6_state_roundtrip.1 [("x", "1"), ("y", "2")] (by decide) (by decide)

end ReviewAction
